import Mathlib

/-!
Verification of the Severino Poggibonsi repository-hygiene bot:
the branch-safety classifier, the pattern matcher, the stale-PR state
machine, the deletion-request workflow and the merged-branch cleanup
handlers, shallowly embedded from the TypeScript sources.

Collaborator calls (GitHub, Slack, the key-value store) are modelled by
explicit oracle records passed to each embedded operation; the operations
return both their result and the side effects / collaborator calls they
perform, so that short-circuiting and at-most-once properties are
expressible.
-/

namespace Severino

/-! ## Character-list helpers (substring / suffix checks used by the code) -/

/-- `startsWithChars n h`: the char list `n` is an initial segment of `h`. -/
def startsWithChars : List Char → List Char → Bool
  | [], _ => true
  | _ :: _, [] => false
  | a :: as, b :: bs => a = b && startsWithChars as bs

/-- Embeds JavaScript `hay.includes(needle)`: `needle` occurs contiguously in `hay`. -/
def strIncludes (needle hay : String) : Bool :=
  (List.range (hay.data.length + 1)).any fun i => startsWithChars needle.data (hay.data.drop i)

/-- Embeds a JavaScript `name.endsWith(tail)`-style check at the char level. -/
def endsWithChars (tail s : String) : Bool :=
  startsWithChars tail.data.reverse s.data.reverse

/-! ## Pattern matcher (`src/src/utils/config.ts`, `isProtectedBranch` / `isExcludedBranch`)

The TypeScript builds `new RegExp('^' + pattern.replace(/\*/g, '.*') + '$')`
for a pattern containing `*` and tests the branch name against it; a pattern
without `*` requires exact string equality.  We embed the compiled regular
expression as a list of atoms: a literal character, the JS regex wildcard `.`
(any single character), or `.*` (any, possibly empty, character sequence,
coming from a `*` in the pattern).  The embedding is faithful for patterns
that contain no other JavaScript regex metacharacter; `patternRepresentable`
delimits that domain. -/

inductive Atom where
  | lit (c : Char)
  | dot
  | star
deriving DecidableEq, Repr

/-- Anchored matching of a compiled atom list against a character list.
`star` consumes zero or more characters (tried as every possible split of the
remaining input), `dot` exactly one character, `lit c` exactly the character
`c`. -/
def matchAtoms : List Atom → List Char → Bool
  | [], s => s.isEmpty
  | Atom.lit c :: as, s =>
      match s with
      | [] => false
      | x :: xs => x = c && matchAtoms as xs
  | Atom.dot :: as, s =>
      match s with
      | [] => false
      | _ :: xs => matchAtoms as xs
  | Atom.star :: as, s =>
      (List.range (s.length + 1)).any fun i => matchAtoms as (s.drop i)

/-- How `pattern.replace(/\*/g, '.*')` compiles one pattern character:
`*` becomes `.*`, `.` keeps its JS regex any-character meaning, everything
else (in the representable domain) denotes itself. -/
def compileAtom (c : Char) : Atom :=
  if c = '*' then Atom.star else if c = '.' then Atom.dot else Atom.lit c

/-- `hasChar p c`: the string `p` contains the character `c`
(embeds JavaScript `p.includes(c)` for a one-character needle). -/
def hasChar (p : String) (c : Char) : Bool :=
  p.data.any (· = c)

/-- JavaScript regex metacharacters other than `.` and `*`; a pattern
containing one of these is outside the domain of this embedding. -/
def jsRegexMeta : List Char :=
  ['\\', '^', '$', '+', '?', '(', ')', '[', ']', '|', Char.ofNat 123, Char.ofNat 125]

/-- Patterns on which the regex embedding is faithful to the JS source. -/
def patternRepresentable (p : String) : Bool :=
  p.data.all fun c => !(jsRegexMeta.any (· = c))

/-- One pattern against one branch name, as in the body of the `some` callback
of `isProtectedBranch`: wildcard patterns go through the compiled regex,
plain patterns require equality. -/
def patternMatches (p : String) (name : String) : Bool :=
  if hasChar p '*' then matchAtoms (p.data.map compileAtom) name.data
  else name = p

/-- Embeds `isProtectedBranch` / `isExcludedBranch` from `src/src/utils/config.ts`
(the two functions differ only in the pattern list they read). -/
def isProtectedBranch (branchName : String) (patterns : List String) : Bool :=
  patterns.any fun p => patternMatches p branchName

/-- Spec-words glob semantics (for the refinement comparison of claim C8):
`GlobMatch p s` holds iff `s` is obtained from the pattern `p` by replacing
each `*` with an arbitrary (possibly empty) character sequence, anchored at
both ends, every non-`*` character taken verbatim. -/
inductive GlobMatch : List Char → List Char → Prop where
  | nil : GlobMatch [] []
  | lit {c : Char} {ps ss : List Char} (hc : c ≠ '*') (h : GlobMatch ps ss) :
      GlobMatch (c :: ps) (c :: ss)
  | star {ps ss : List Char} (seq : List Char) (h : GlobMatch ps ss) :
      GlobMatch ('*' :: ps) (seq ++ ss)

/-- The claim's matcher, stated from the spec's words: verbatim equality for
`*`-free patterns, glob substitution for wildcard patterns, any pattern in
the list suffices. -/
def claimMatches (name : String) (patterns : List String) : Prop :=
  ∃ p ∈ patterns,
    (hasChar p '*' = false ∧ name = p) ∨
    (hasChar p '*' = true ∧ GlobMatch p.data name.data)

/-- Executable form of the glob semantics: every pattern character is literal
except `*`. -/
def claimCompileAtom (c : Char) : Atom :=
  if c = '*' then Atom.star else Atom.lit c

/-! Bridge between the executable matcher and the inductive glob relation. -/

theorem claimCompileAtom_star : claimCompileAtom '*' = Atom.star := rfl

theorem claimCompileAtom_ne {c : Char} (hc : c ≠ '*') :
    claimCompileAtom c = Atom.lit c := if_neg hc

theorem matchAtoms_star_iff {as : List Atom} {s : List Char} :
    matchAtoms (Atom.star :: as) s = true ↔
      ∃ i ≤ s.length, matchAtoms as (s.drop i) = true := by
  simp only [matchAtoms, List.any_eq_true, List.mem_range, Nat.lt_succ_iff]

theorem globMatch_of_matchAtoms :
    ∀ (ps : List Char) (s : List Char),
      matchAtoms (ps.map claimCompileAtom) s = true → GlobMatch ps s := by
  intro ps
  induction ps with
  | nil =>
      intro s h
      cases s with
      | nil => exact GlobMatch.nil
      | cons x xs => simp [matchAtoms] at h
  | cons c ps ih =>
      intro s h
      by_cases hc : c = '*'
      · subst hc
        rw [List.map_cons, claimCompileAtom_star] at h
        rcases matchAtoms_star_iff.mp h with ⟨i, _, hdrop⟩
        have hglob : GlobMatch ps (s.drop i) := ih _ hdrop
        have := GlobMatch.star (s.take i) hglob
        rwa [List.take_append_drop] at this
      · rw [List.map_cons, claimCompileAtom_ne hc] at h
        cases s with
        | nil => simp [matchAtoms] at h
        | cons x xs =>
            simp only [matchAtoms, Bool.and_eq_true, decide_eq_true_eq] at h
            rcases h with ⟨rfl, h⟩
            exact GlobMatch.lit hc (ih xs h)

theorem matchAtoms_of_globMatch {ps s : List Char} (h : GlobMatch ps s) :
    matchAtoms (ps.map claimCompileAtom) s = true := by
  induction h with
  | nil => rfl
  | lit hc h ih =>
      rename_i c ps' ss
      rw [List.map_cons, claimCompileAtom_ne hc]
      simp [matchAtoms, ih]
  | star seq h ih =>
      rename_i ps' ss
      rw [List.map_cons, claimCompileAtom_star]
      apply matchAtoms_star_iff.mpr
      refine ⟨seq.length, ?_, ?_⟩
      · simp [List.length_append]
      · rwa [List.drop_left]

/-- On `.`-free patterns the code's compilation agrees with the literal glob
compilation. -/
theorem compile_eq_claimCompile_of_dotFree {p : String}
    (h : hasChar p '.' = false) :
    p.data.map compileAtom = p.data.map claimCompileAtom := by
  apply List.map_congr_left
  intro c hcmem
  have hcd : c ≠ '.' := by
    intro hEq
    subst hEq
    simp only [hasChar, List.any_eq_true, decide_eq_true_eq, Bool.not_eq_true,
      List.any_eq_false] at h
    exact h '.' hcmem rfl
  unfold compileAtom claimCompileAtom
  by_cases hstar : c = '*'
  · simp [hstar]
  · simp [hstar, hcd]

/-! ## Default configuration (`DEFAULT_CONFIG` in `src/src/utils/config.ts`) -/

def defaultProtectedPatterns : List String := ["main", "master", "develop", "release/*"]

def defaultExcludePatterns : List String := ["dependabot/*"]

def defaultWarningDays : Int := 7

def defaultCloseDays : Int := 14

def defaultExcludeLabels : List String := ["pinned", "security", "do-not-close"]

/-! ## Claim C8 -/

/-- C8 (counterexample): the claim asserts that no pattern character other
than `*` has non-literal meaning, but in the code a `.` inside a wildcard
pattern keeps its regex any-character meaning: the pattern `a.c*` matches the
branch name `abc` in the code, while the claim's literal glob semantics
rejects it. -/
theorem C8_counterexample :
    isProtectedBranch "abc" ["a.c*"] = true ∧ ¬ claimMatches "abc" ["a.c*"] := by
  constructor
  · decide
  · rintro ⟨p, hp, hcase⟩
    simp only [List.mem_singleton] at hp
    subst hp
    rcases hcase with ⟨hstar, _⟩ | ⟨_, hglob⟩
    · exact absurd hstar (by decide)
    · exact absurd (matchAtoms_of_globMatch hglob) (by decide)

/-- C8 (amended): for pattern lists free of JavaScript regex metacharacters
(in particular free of `.`), the code's matcher returns true iff the branch
name equals some `*`-free pattern verbatim, or matches some wildcard pattern
with each `*` substituted by an arbitrary (possibly empty) character
sequence, anchored at both ends.  For patterns containing `.` the claim
fails, because `.` keeps its regex any-character meaning. -/
theorem C8_pattern_match_amended (name : String) (patterns : List String)
    (hrep : ∀ p ∈ patterns, patternRepresentable p = true)
    (hdot : ∀ p ∈ patterns, hasChar p '.' = false) :
    isProtectedBranch name patterns = true ↔ claimMatches name patterns := by
  constructor
  · intro h
    rw [isProtectedBranch, List.any_eq_true] at h
    obtain ⟨p, hpmem, hpm⟩ := h
    by_cases hstar : hasChar p '*' = true
    · refine ⟨p, hpmem, Or.inr ⟨hstar, ?_⟩⟩
      rw [patternMatches, if_pos hstar,
        compile_eq_claimCompile_of_dotFree (hdot p hpmem)] at hpm
      exact globMatch_of_matchAtoms _ _ hpm
    · refine ⟨p, hpmem, Or.inl ⟨by simpa using hstar, ?_⟩⟩
      rw [patternMatches, if_neg hstar] at hpm
      simpa using hpm
  · rintro ⟨p, hpmem, hcase⟩
    rw [isProtectedBranch, List.any_eq_true]
    refine ⟨p, hpmem, ?_⟩
    rcases hcase with ⟨hstar, rfl⟩ | ⟨hstar, hglob⟩
    · rw [patternMatches, if_neg (by simp [hstar])]
      simp
    · rw [patternMatches, if_pos hstar,
        compile_eq_claimCompile_of_dotFree (hdot p hpmem)]
      exact matchAtoms_of_globMatch hglob

/-- Witness for `C8_pattern_match_amended` at the default protected patterns
restricted to a metacharacter-free list. -/
theorem C8_pattern_match_amended_witness :
    isProtectedBranch "release/x" ["main", "release/*"] = true ∧
      claimMatches "release/x" ["main", "release/*"] :=
  ⟨by decide,
    (C8_pattern_match_amended "release/x" ["main", "release/*"]
      (by decide) (by decide)).mp (by decide)⟩

/-! ## Branch safety classifier
(`src/src/services/branchAnalyzer.ts`, `BranchAnalyzer.isSafeToDelete`)

The GitHub collaborator is modelled by a record of the answers it would give
for the branch under scrutiny; `isSafeToDelete` returns its result together
with the ordered list of collaborator calls it performed, so that
short-circuiting is observable. -/

/-- Answers of the GitHub collaborator for one branch at one instant. -/
structure GitHubState where
  branchExists : Bool
  defaultBranch : String
  isMergedAns : Bool
  branchSha : Option String
deriving DecidableEq, Repr

/-- The collaborator calls `isSafeToDelete` can make, in source order. -/
inductive GhCall where
  | branchExists
  | getDefaultBranch
  | isBranchMerged
  | getBranchSha
deriving DecidableEq, Repr

/-- Result record of the safety check (`{ safe: boolean; reason?: string }`). -/
structure SafetyResult where
  safe : Bool
  reason : Option String
deriving DecidableEq, Repr

/-- Embeds `BranchAnalyzer.isSafeToDelete`: five checks in source order,
returning at the first failure; the second component is the trace of
collaborator calls performed. -/
def isSafeToDelete (patterns : List String) (gh : GitHubState)
    (branchName : String) (expectedSha : Option String) :
    SafetyResult × List GhCall :=
  if isProtectedBranch branchName patterns then
    (⟨false, some "Branch is protected"⟩, [])
  else if !gh.branchExists then
    (⟨false, some "Branch no longer exists"⟩, [GhCall.branchExists])
  else if branchName = gh.defaultBranch then
    (⟨false, some "Cannot delete default branch"⟩,
      [GhCall.branchExists, GhCall.getDefaultBranch])
  else if !gh.isMergedAns then
    (⟨false, some "Branch is not fully merged"⟩,
      [GhCall.branchExists, GhCall.getDefaultBranch, GhCall.isBranchMerged])
  else
    match expectedSha with
    | some sha =>
        if gh.branchSha ≠ some sha then
          (⟨false, some "Branch has new commits since last check"⟩,
            [GhCall.branchExists, GhCall.getDefaultBranch,
              GhCall.isBranchMerged, GhCall.getBranchSha])
        else
          (⟨true, none⟩,
            [GhCall.branchExists, GhCall.getDefaultBranch,
              GhCall.isBranchMerged, GhCall.getBranchSha])
    | none =>
        (⟨true, none⟩,
          [GhCall.branchExists, GhCall.getDefaultBranch, GhCall.isBranchMerged])

/-! ## Claim C1 -/

/-- C1: `isSafeToDelete` evaluates its five checks in the fixed order
protected-pattern, existence, default-branch, merged, expected-sha, returns
the reason of the first failing check, and performs no collaborator call
beyond the check at which it stopped; in particular a protected branch name
yields `{safe: false, reason: "Branch is protected"}` with zero collaborator
calls. -/
theorem C1_isSafeToDelete_short_circuit (patterns : List String)
    (gh : GitHubState) (branchName : String) (expectedSha : Option String) :
    (isProtectedBranch branchName patterns = true →
      isSafeToDelete patterns gh branchName expectedSha =
        (⟨false, some "Branch is protected"⟩, [])) ∧
    (isProtectedBranch branchName patterns = false → gh.branchExists = false →
      isSafeToDelete patterns gh branchName expectedSha =
        (⟨false, some "Branch no longer exists"⟩, [GhCall.branchExists])) ∧
    (isProtectedBranch branchName patterns = false → gh.branchExists = true →
      branchName = gh.defaultBranch →
      isSafeToDelete patterns gh branchName expectedSha =
        (⟨false, some "Cannot delete default branch"⟩,
          [GhCall.branchExists, GhCall.getDefaultBranch])) ∧
    (isProtectedBranch branchName patterns = false → gh.branchExists = true →
      branchName ≠ gh.defaultBranch → gh.isMergedAns = false →
      isSafeToDelete patterns gh branchName expectedSha =
        (⟨false, some "Branch is not fully merged"⟩,
          [GhCall.branchExists, GhCall.getDefaultBranch, GhCall.isBranchMerged])) ∧
    (∀ sha, isProtectedBranch branchName patterns = false → gh.branchExists = true →
      branchName ≠ gh.defaultBranch → gh.isMergedAns = true →
      expectedSha = some sha → gh.branchSha ≠ some sha →
      isSafeToDelete patterns gh branchName expectedSha =
        (⟨false, some "Branch has new commits since last check"⟩,
          [GhCall.branchExists, GhCall.getDefaultBranch,
            GhCall.isBranchMerged, GhCall.getBranchSha])) ∧
    (∀ sha, isProtectedBranch branchName patterns = false → gh.branchExists = true →
      branchName ≠ gh.defaultBranch → gh.isMergedAns = true →
      expectedSha = some sha → gh.branchSha = some sha →
      isSafeToDelete patterns gh branchName expectedSha =
        (⟨true, none⟩,
          [GhCall.branchExists, GhCall.getDefaultBranch,
            GhCall.isBranchMerged, GhCall.getBranchSha])) ∧
    (isProtectedBranch branchName patterns = false → gh.branchExists = true →
      branchName ≠ gh.defaultBranch → gh.isMergedAns = true → expectedSha = none →
      isSafeToDelete patterns gh branchName expectedSha =
        (⟨true, none⟩,
          [GhCall.branchExists, GhCall.getDefaultBranch, GhCall.isBranchMerged])) := by
  refine ⟨?_, ?_, ?_, ?_, ?_, ?_, ?_⟩
  · intro h
    simp [isSafeToDelete, h]
  · intro h he
    simp [isSafeToDelete, h, he]
  · intro h he hd
    subst hd
    simp [isSafeToDelete, h, he]
  · intro h he hd hm
    simp [isSafeToDelete, h, he, Ne.symm hd, hd, hm]
  · intro sha h he hd hm hsha hne
    subst hsha
    simp [isSafeToDelete, h, he, hd, hm, hne]
  · intro sha h he hd hm hsha heq
    subst hsha
    simp [isSafeToDelete, h, he, hd, hm, heq]
  · intro h he hd hm hsha
    subst hsha
    simp [isSafeToDelete, h, he, hd, hm]

/-- Witness: spec scenario 1 — branch `main` against patterns
`["main", "release/*"]` is rejected as protected with zero collaborator
calls. -/
theorem C1_isSafeToDelete_short_circuit_witness :
    isSafeToDelete ["main", "release/*"]
        ⟨true, "main", true, some "abc"⟩ "main" none =
      (⟨false, some "Branch is protected"⟩, []) :=
  (C1_isSafeToDelete_short_circuit ["main", "release/*"]
      ⟨true, "main", true, some "abc"⟩ "main" none).1 (by decide)

/-! ## Merged-branch cleanup handlers
(`src/src/handlers/mergedBranches.ts` and the dry-run-capable variant of the
same class in `src/unnamed/part_004`, `cleanupMergedPrBranch`)

The branch-deletion collaborator is modelled by `deleteOk` (whether the
`deleteBranch` call succeeds) and `deleteErr` (the `String(error)` rendering
when it throws).  Each embedding returns the `ActionResult` together with a
flag recording whether `deleteBranch` was called. -/

/-- The `details` record of a cleanup `ActionResult` (only the keys the two
handlers write). -/
structure CleanupDetails where
  branchName : String
  reason : Option String := none
  sha : Option String := none
  repo : Option String := none
  dryRun : Option Bool := none
deriving DecidableEq, Repr

/-- A cleanup `ActionResult`. -/
structure CleanupResult where
  success : Bool
  action : String
  details : CleanupDetails
  error : Option String := none
deriving DecidableEq, Repr

/-- Embeds `MergedBranchesHandler.cleanupMergedPrBranch` from
`src/src/handlers/mergedBranches.ts` (no dry-run support). -/
def cleanupMergedPrBranch (patterns : List String) (gh : GitHubState)
    (deleteOk : Bool) (deleteErr : String)
    (owner repo branchName expectedSha : String) : CleanupResult × Bool :=
  let safetyCheck := (isSafeToDelete patterns gh branchName (some expectedSha)).1
  if !safetyCheck.safe then
    ({ success := false, action := "branch_cleanup",
       details := { branchName := branchName, reason := safetyCheck.reason },
       error := safetyCheck.reason }, false)
  else if deleteOk then
    ({ success := true, action := "branch_cleanup",
       details := { branchName := branchName, sha := some expectedSha,
                    repo := some (owner ++ "/" ++ repo) } }, true)
  else
    ({ success := false, action := "branch_cleanup",
       details := { branchName := branchName },
       error := some deleteErr }, true)

/-- Embeds the dry-run-capable `MergedBranchesHandler.cleanupMergedPrBranch`
from `src/unnamed/part_004` (constructor parameter `dryRun`). -/
def cleanupMergedPrBranchDry (dryRun : Bool) (patterns : List String)
    (gh : GitHubState) (deleteOk : Bool) (deleteErr : String)
    (owner repo branchName expectedSha : String) : CleanupResult × Bool :=
  let safetyCheck := (isSafeToDelete patterns gh branchName (some expectedSha)).1
  if !safetyCheck.safe then
    ({ success := false, action := "branch_cleanup",
       details := { branchName := branchName, reason := safetyCheck.reason },
       error := safetyCheck.reason }, false)
  else if dryRun then
    ({ success := true, action := "branch_cleanup_dry_run",
       details := { branchName := branchName, sha := some expectedSha,
                    repo := some (owner ++ "/" ++ repo),
                    dryRun := some true } }, false)
  else if deleteOk then
    ({ success := true, action := "branch_cleanup",
       details := { branchName := branchName, sha := some expectedSha,
                    repo := some (owner ++ "/" ++ repo) } }, true)
  else
    ({ success := false, action := "branch_cleanup",
       details := { branchName := branchName },
       error := some deleteErr }, true)

/-! ## Claim C10 -/

/-- C10: with `dryRun = false` the dry-run-capable handler variant returns
the same `ActionResult` and issues the same branch-deletion calls as the
handler of `src/src/handlers/mergedBranches.ts`, for every context, branch
name, expected sha, and collaborator behavior. -/
theorem C10_cleanup_handlers_equivalent (patterns : List String)
    (gh : GitHubState) (deleteOk : Bool) (deleteErr : String)
    (owner repo branchName expectedSha : String) :
    cleanupMergedPrBranchDry false patterns gh deleteOk deleteErr
        owner repo branchName expectedSha =
      cleanupMergedPrBranch patterns gh deleteOk deleteErr
        owner repo branchName expectedSha := by
  simp [cleanupMergedPrBranch, cleanupMergedPrBranchDry]

/-! ## Deletion request workflow: response handling
(`src/unnamed/part_004`, `ManualMergesHandler.handleDeletionResponse`)

The request map is modelled by the record the token resolves to (`none` for
an unknown token).  Each call is parametrised by the collaborator behavior at
that instant and returns the updated record, the side effects performed
(deleteBranch calls, successful branch deletions, rejection markings) and
the `ActionResult` (details omitted; success, action and error faithfully
mirror the source). -/

/-- `PendingDeletion.status` values. -/
inductive ReqStatus where
  | pending
  | approved
  | rejected
  | expired
deriving DecidableEq, Repr

/-- The fields of a `PendingDeletion` record read or written by
`handleDeletionResponse`. -/
structure PendingDeletion where
  owner : String
  repo : String
  branchName : String
  status : ReqStatus
deriving DecidableEq, Repr

/-- Collaborator behavior during one `handleDeletionResponse` call. -/
structure RespBehavior where
  gh : GitHubState
  deleteOk : Bool
  deleteErr : String
deriving DecidableEq, Repr

/-- Side effects of one `handleDeletionResponse` call. -/
structure RespEffects where
  deleteCalls : Nat
  deletions : Nat
  rejections : Nat
deriving DecidableEq, Repr

/-- An `ActionResult` of the response path (success, action, error). -/
structure RespResult where
  success : Bool
  action : String
  error : Option String
deriving DecidableEq, Repr

/-- Embeds `ManualMergesHandler.handleDeletionResponse`: unknown token,
already-processed guard, approved path (fresh safety check without
expected-sha, then deletion with status update on success and unchanged
status on deletion error), rejected path. -/
def handleDeletionResponse (patterns : List String)
    (req : Option PendingDeletion) (beh : RespBehavior) (approved : Bool) :
    Option PendingDeletion × RespEffects × RespResult :=
  match req with
  | none =>
      (none, ⟨0, 0, 0⟩,
        ⟨false, "deletion_response", some "Request not found or expired"⟩)
  | some pending =>
      if pending.status ≠ ReqStatus.pending then
        (some pending, ⟨0, 0, 0⟩,
          ⟨false, "deletion_response", some "Request already processed"⟩)
      else if approved then
        let safetyCheck := (isSafeToDelete patterns beh.gh pending.branchName none).1
        if !safetyCheck.safe then
          (some { pending with status := ReqStatus.rejected }, ⟨0, 0, 1⟩,
            ⟨false, "branch_deletion", safetyCheck.reason⟩)
        else if beh.deleteOk then
          (some { pending with status := ReqStatus.approved }, ⟨1, 1, 0⟩,
            ⟨true, "branch_deletion", none⟩)
        else
          (some pending, ⟨1, 0, 0⟩,
            ⟨false, "branch_deletion", some beh.deleteErr⟩)
      else
        (some { pending with status := ReqStatus.rejected }, ⟨0, 0, 1⟩,
          ⟨true, "deletion_rejected", none⟩)

/-- Each single call performs at most one deletion-or-rejection side effect. -/
theorem hdr_effects_le_one (patterns : List String)
    (req : Option PendingDeletion) (beh : RespBehavior) (approved : Bool) :
    (handleDeletionResponse patterns req beh approved).2.1.deletions +
      (handleDeletionResponse patterns req beh approved).2.1.rejections ≤ 1 := by
  unfold handleDeletionResponse
  rcases req with _ | p
  · simp
  · by_cases hp : p.status = ReqStatus.pending <;>
      by_cases ha : approved <;>
        by_cases hs : (!(isSafeToDelete patterns beh.gh p.branchName none).1.safe) = true <;>
          by_cases hd : beh.deleteOk = true <;>
            simp [hp, ha, hs, hd]

/-- If a call performed a deletion-or-rejection side effect, it left the
request with a non-pending status. -/
theorem hdr_effect_consumes (patterns : List String)
    (req : Option PendingDeletion) (beh : RespBehavior) (approved : Bool)
    (h : 0 < (handleDeletionResponse patterns req beh approved).2.1.deletions +
      (handleDeletionResponse patterns req beh approved).2.1.rejections) :
    ∃ p, (handleDeletionResponse patterns req beh approved).1 = some p ∧
      p.status ≠ ReqStatus.pending := by
  unfold handleDeletionResponse at *
  rcases req with _ | p
  · simp at h
  · by_cases hp : p.status = ReqStatus.pending <;>
      by_cases ha : approved <;>
        by_cases hs : (!(isSafeToDelete patterns beh.gh p.branchName none).1.safe) = true <;>
          by_cases hd : beh.deleteOk = true <;>
            simp_all

/-- A call on a non-pending (or unknown) request performs no side effect and
fails with the already-processed (or not-found) error. -/
theorem hdr_consumed_noop (patterns : List String) (p : PendingDeletion)
    (beh : RespBehavior) (approved : Bool)
    (h : p.status ≠ ReqStatus.pending) :
    handleDeletionResponse patterns (some p) beh approved =
      (some p, ⟨0, 0, 0⟩,
        ⟨false, "deletion_response", some "Request already processed"⟩) := by
  simp [handleDeletionResponse, h]

/-! ## Claim C2 -/

/-- C2: across two successive `handleDeletionResponse` calls with the same
token, at most one branch-deletion or rejection-marking side effect occurs;
and whenever the first call moved the request from pending to a non-pending
status, the second call performs no side effect at all (not even a
collaborator call) and fails with "Request already processed". -/
theorem C2_at_most_once (patterns : List String)
    (req : Option PendingDeletion) (b1 b2 : RespBehavior) (a1 a2 : Bool) :
    ((handleDeletionResponse patterns req b1 a1).2.1.deletions +
        (handleDeletionResponse patterns req b1 a1).2.1.rejections) +
      ((handleDeletionResponse patterns
            (handleDeletionResponse patterns req b1 a1).1 b2 a2).2.1.deletions +
        (handleDeletionResponse patterns
            (handleDeletionResponse patterns req b1 a1).1 b2 a2).2.1.rejections) ≤ 1 ∧
    (∀ p0 p1, req = some p0 → p0.status = ReqStatus.pending →
      (handleDeletionResponse patterns req b1 a1).1 = some p1 →
      p1.status ≠ ReqStatus.pending →
      handleDeletionResponse patterns
          (handleDeletionResponse patterns req b1 a1).1 b2 a2 =
        (some p1, ⟨0, 0, 0⟩,
          ⟨false, "deletion_response", some "Request already processed"⟩)) := by
  constructor
  · by_cases h1 :
      0 < (handleDeletionResponse patterns req b1 a1).2.1.deletions +
        (handleDeletionResponse patterns req b1 a1).2.1.rejections
    · obtain ⟨p, hp, hps⟩ := hdr_effect_consumes patterns req b1 a1 h1
      rw [hp, hdr_consumed_noop patterns p b2 a2 hps]
      simpa using hdr_effects_le_one patterns req b1 a1
    · have h0 :
          (handleDeletionResponse patterns req b1 a1).2.1.deletions +
            (handleDeletionResponse patterns req b1 a1).2.1.rejections = 0 := by
        omega
      rw [h0]
      simpa using hdr_effects_le_one patterns
        (handleDeletionResponse patterns req b1 a1).1 b2 a2
  · intro p0 p1 _ _ hres hps
    rw [hres, hdr_consumed_noop patterns p1 b2 a2 hps]

/-- Witness for `C2_at_most_once`: a rejected request is marked once, and the
replay of the same token fails with "Request already processed" and performs
nothing. -/
theorem C2_at_most_once_witness :
    handleDeletionResponse []
        (handleDeletionResponse [] (some ⟨"o", "r", "b", ReqStatus.pending⟩)
            ⟨⟨true, "main", true, some "s"⟩, true, ""⟩ false).1
        ⟨⟨true, "main", true, some "s"⟩, true, ""⟩ false =
      (some ⟨"o", "r", "b", ReqStatus.rejected⟩, ⟨0, 0, 0⟩,
        ⟨false, "deletion_response", some "Request already processed"⟩) :=
  (C2_at_most_once [] (some ⟨"o", "r", "b", ReqStatus.pending⟩)
      ⟨⟨true, "main", true, some "s"⟩, true, ""⟩
      ⟨⟨true, "main", true, some "s"⟩, true, ""⟩ false false).2
    ⟨"o", "r", "b", ReqStatus.pending⟩ ⟨"o", "r", "b", ReqStatus.rejected⟩
    rfl rfl (by decide) (by decide)

/-! ## Claim C5 -/

/-- C5 (counterexample): when the deletion collaborator errors after
approval, the source leaves the request status `pending` — the token is NOT
consumed — so a replay of the same token does not fail with "Request already
processed" but re-runs the safety check and retries the deletion. -/
theorem C5_counterexample :
    (handleDeletionResponse [] (some ⟨"o", "r", "b", ReqStatus.pending⟩)
        ⟨⟨true, "main", true, some "s"⟩, false, "Error: Delete API error"⟩ true) =
      (some ⟨"o", "r", "b", ReqStatus.pending⟩, ⟨1, 0, 0⟩,
        ⟨false, "branch_deletion", some "Error: Delete API error"⟩) ∧
    (handleDeletionResponse [] (some ⟨"o", "r", "b", ReqStatus.pending⟩)
        ⟨⟨true, "main", true, some "s"⟩, true, ""⟩ true) =
      (some ⟨"o", "r", "b", ReqStatus.approved⟩, ⟨1, 1, 0⟩,
        ⟨true, "branch_deletion", none⟩) := by
  decide

/-- C5 (amended): if `handleDeletionResponse` is called with a pending token
and `approved = true`, the safety check passes, and the branch-deletion
collaborator call errors, then the stored status remains `pending`: the
token stays consumable, and a subsequent call with the same token under a
behavior whose safety check passes and whose deletion succeeds retries and
performs the deletion (rather than failing with "Request already
processed"). -/
theorem C5_delete_error_leaves_pending (patterns : List String)
    (p : PendingDeletion) (beh : RespBehavior)
    (hp : p.status = ReqStatus.pending)
    (hsafe : (isSafeToDelete patterns beh.gh p.branchName none).1.safe = true)
    (hdel : beh.deleteOk = false) :
    handleDeletionResponse patterns (some p) beh true =
      (some p, ⟨1, 0, 0⟩, ⟨false, "branch_deletion", some beh.deleteErr⟩) ∧
    (∀ beh2 : RespBehavior,
      (isSafeToDelete patterns beh2.gh p.branchName none).1.safe = true →
      beh2.deleteOk = true →
      handleDeletionResponse patterns (some p) beh2 true =
        (some { p with status := ReqStatus.approved }, ⟨1, 1, 0⟩,
          ⟨true, "branch_deletion", none⟩)) := by
  constructor
  · simp [handleDeletionResponse, hp, hsafe, hdel]
  · intro beh2 hsafe2 hdel2
    simp [handleDeletionResponse, hp, hsafe2, hdel2]

/-- Witness for `C5_delete_error_leaves_pending` at a concrete request and
collaborator behavior. -/
theorem C5_delete_error_leaves_pending_witness :
    handleDeletionResponse [] (some ⟨"o", "r", "b", ReqStatus.pending⟩)
        ⟨⟨true, "main", true, some "s"⟩, false, "boom"⟩ true =
      (some ⟨"o", "r", "b", ReqStatus.pending⟩, ⟨1, 0, 0⟩,
        ⟨false, "branch_deletion", some "boom"⟩) :=
  (C5_delete_error_leaves_pending [] ⟨"o", "r", "b", ReqStatus.pending⟩
      ⟨⟨true, "main", true, some "s"⟩, false, "boom"⟩
      rfl (by decide) rfl).1

/-! ## Branch analyzer (`src/src/services/branchAnalyzer.ts`, `analyzeBranch`)

The collaborator answers (`isBranchMerged`, `findPullRequestForBranch`,
`getBranchCommits`, `getBranchSha`) are passed in explicitly.  JavaScript
truthiness of `prNumber || undefined` is embedded exactly: the number `0` is
falsy. -/

/-- One commit as returned by `getBranchCommits`. -/
structure Commit where
  sha : String
  author : String
  date : Int
deriving DecidableEq, Repr

/-- A branch record (`protected` is a Lean keyword, hence `isProtected`). -/
structure Branch where
  name : String
  sha : String
  isProtected : Bool
deriving DecidableEq, Repr

/-- The analysis record built by `analyzeBranch`. -/
structure BranchAnalysis where
  branch : Branch
  isMerged : Bool
  hasAssociatedPr : Bool
  associatedPrNumber : Option Int
  contributors : List String
  lastCommitDate : Int
deriving DecidableEq, Repr

/-- First-occurrence deduplication, as `[...new Set(xs)]` produces. -/
def dedupFirst : List String → List String
  | [] => []
  | x :: xs => x :: (dedupFirst xs).filter (· ≠ x)

/-- Embeds `BranchAnalyzer.analyzeBranch`: skip protected/excluded names and
the default branch, fail when the branch sha cannot be obtained, otherwise
build the analysis record.  `prNumber` is the collaborator's
`findPullRequestForBranch` answer. -/
def analyzeBranch (protectedPatterns excludePatterns : List String)
    (defaultBranch branchName : String) (isMerged : Bool)
    (prNumber : Option Int) (commits : List Commit)
    (branchSha : Option String) : Option BranchAnalysis :=
  if isProtectedBranch branchName protectedPatterns ||
      isProtectedBranch branchName excludePatterns then
    none
  else if branchName = defaultBranch then
    none
  else
    match branchSha with
    | none => none
    | some sha =>
        some
          { branch := ⟨branchName, sha, false⟩
            isMerged := isMerged
            hasAssociatedPr := prNumber.isSome
            associatedPrNumber :=
              match prNumber with
              | some n => if n ≠ 0 then some n else none
              | none => none
            contributors := dedupFirst (commits.map (·.author))
            lastCommitDate :=
              if commits.length > 0 then
                commits.foldl (fun latest c => if c.date > latest then c.date else latest) 0
              else 0 }

/-! ## Claim C9 -/

/-- C9 (counterexample): when the collaborator reports pull-request number 0
for the branch, the returned analysis has `hasAssociatedPr = true`
(`prNumber !== null`) but `associatedPrNumber` absent (`prNumber ||
undefined` is falsy at 0), violating the claimed invariant. -/
theorem C9_counterexample :
    (analyzeBranch [] [] "main" "feat" true (some 0) [] (some "s")).map
        (fun a => (a.hasAssociatedPr, a.associatedPrNumber)) =
      some (true, none) := by
  decide

/-- C9 (amended): every `BranchAnalysis` returned by `analyzeBranch`
satisfies `hasAssociatedPr = associatedPrNumber.isSome` whenever the
collaborator's pull-request number is not the (JavaScript-falsy) number 0. -/
theorem C9_invariant_amended (protectedPatterns excludePatterns : List String)
    (defaultBranch branchName : String) (isMerged : Bool)
    (prNumber : Option Int) (commits : List Commit) (branchSha : Option String)
    (h0 : prNumber ≠ some 0) (a : BranchAnalysis)
    (ha : analyzeBranch protectedPatterns excludePatterns defaultBranch
        branchName isMerged prNumber commits branchSha = some a) :
    a.hasAssociatedPr = a.associatedPrNumber.isSome := by
  unfold analyzeBranch at ha
  by_cases hskip :
      (isProtectedBranch branchName protectedPatterns ||
        isProtectedBranch branchName excludePatterns) = true
  · simp [hskip] at ha
  · rw [if_neg (by simp [hskip])] at ha
    by_cases hdef : branchName = defaultBranch
    · simp [hdef] at ha
    · rw [if_neg hdef] at ha
      rcases branchSha with _ | sha
      · simp at ha
      · simp only [Option.some.injEq] at ha
        subst ha
        rcases prNumber with _ | n
        · rfl
        · have hn : n ≠ 0 := fun hEq => h0 (by rw [hEq])
          simp [hn]

/-- Witness for `C9_invariant_amended` at a concrete non-zero PR number. -/
theorem C9_invariant_amended_witness :
    (⟨⟨"feat", "s", false⟩, true, true, some 42, [], 0⟩ :
        BranchAnalysis).hasAssociatedPr =
      (⟨⟨"feat", "s", false⟩, true, true, some 42, [], 0⟩ :
        BranchAnalysis).associatedPrNumber.isSome :=
  C9_invariant_amended [] [] "main" "feat" true (some 42) [] (some "s")
    (by decide) ⟨⟨"feat", "s", false⟩, true, true, some 42, [], 0⟩ (by decide)

/-! ## Deletion request workflow: requesting permission

`Modelled from the spec:` the current `ManualMergesHandler.requestDeletionPermission`
— §4.5 steps 1–4, with automation-identity (bot-suffix) filtering and
Deduplication Store consultation — is not present under `src/`;
`src/unnamed/part_004` holds an older variant without these steps, while
`test/handlers/manualMerges.test.ts` exercises exactly the modelled
behavior (bot filtering, `skippedDuplicates`, dedup via
`wasDmSent`/`markDmSent` of `src/unnamed/part_005`).  The model below
follows the spec's words: filter bot-suffîxed contributors; for each
remaining contributor consult the store keyed by
(owner, repo, branch, contributor) and skip (counting a duplicate) when a
record exists in the retention window, otherwise attempt the send and on
success record the dedup fact; succeed iff at least one message was sent.
The store is modelled as the list of unexpired keys; `sendOk` says whether
the contributor's chat identity resolves and the send succeeds. -/

/-- Deduplication key: `(owner, repo, branch, contributor)`. -/
structure DmKey where
  owner : String
  repo : String
  branch : String
  contributor : String
deriving DecidableEq, Repr

/-- Automation identities carry a `[bot]` suffix. -/
def hasBotSuffix (s : String) : Bool :=
  startsWithChars "[bot]".data.reverse s.data.reverse

/-- Accumulated outcome of `requestDeletionPermission`: the updated store,
the counters, the contributors for whom a send was attempted, those
successfully messaged, and the post-filter contributor list. -/
structure RdpOutcome where
  store : List DmKey
  messagesSent : Nat
  skippedDuplicates : Nat
  attempted : List String
  sentTo : List String
  filtered : List String
deriving DecidableEq, Repr

/-- One loop iteration of spec step 3 for contributor `c`. -/
def rdpStep (owner repo branch : String) (sendOk : String → Bool)
    (st : RdpOutcome) (c : String) : RdpOutcome :=
  if (⟨owner, repo, branch, c⟩ : DmKey) ∈ st.store then
    { st with skippedDuplicates := st.skippedDuplicates + 1 }
  else if sendOk c then
    { st with store := st.store ++ [⟨owner, repo, branch, c⟩]
              messagesSent := st.messagesSent + 1
              attempted := st.attempted ++ [c]
              sentTo := st.sentTo ++ [c] }
  else
    { st with attempted := st.attempted ++ [c] }

/-- Modelled from the spec: `requestDeletionPermission` (see the section
comment).  Returns the outcome and the overall success flag (step 4: success
iff at least one message was actually sent). -/
def requestDeletionPermission (owner repo branch : String)
    (contributors : List String) (store : List DmKey)
    (sendOk : String → Bool) : RdpOutcome × Bool :=
  let filtered := contributors.filter fun c => !(hasBotSuffix c)
  let final := filtered.foldl (rdpStep owner repo branch sendOk)
    ⟨store, 0, 0, [], [], filtered⟩
  (final, final.messagesSent > 0)

/-! Fold invariants for the permission-request loop. -/

theorem rdpStep_dup {owner repo branch : String} {sendOk : String → Bool}
    {st : RdpOutcome} {c : String}
    (hmem : (⟨owner, repo, branch, c⟩ : DmKey) ∈ st.store) :
    rdpStep owner repo branch sendOk st c =
      { st with skippedDuplicates := st.skippedDuplicates + 1 } := by
  unfold rdpStep
  rw [if_pos hmem]

theorem rdpStep_send {owner repo branch : String} {sendOk : String → Bool}
    {st : RdpOutcome} {c : String}
    (hmem : (⟨owner, repo, branch, c⟩ : DmKey) ∉ st.store)
    (hs : sendOk c = true) :
    rdpStep owner repo branch sendOk st c =
      { st with store := st.store ++ [⟨owner, repo, branch, c⟩]
                messagesSent := st.messagesSent + 1
                attempted := st.attempted ++ [c]
                sentTo := st.sentTo ++ [c] } := by
  unfold rdpStep
  rw [if_neg hmem, if_pos hs]

theorem rdpStep_fail {owner repo branch : String} {sendOk : String → Bool}
    {st : RdpOutcome} {c : String}
    (hmem : (⟨owner, repo, branch, c⟩ : DmKey) ∉ st.store)
    (hs : sendOk c = false) :
    rdpStep owner repo branch sendOk st c =
      { st with attempted := st.attempted ++ [c] } := by
  unfold rdpStep
  rw [if_neg hmem, if_neg (by simp [hs])]

theorem rdp_store_mono (owner repo branch : String) (sendOk : String → Bool) :
    ∀ (l : List String) (st : RdpOutcome) (k : DmKey),
      k ∈ st.store →
      k ∈ (l.foldl (rdpStep owner repo branch sendOk) st).store := by
  intro l
  induction l with
  | nil => intro st k hk; exact hk
  | cons c cs ih =>
      intro st k hk
      rw [List.foldl_cons]
      apply ih
      by_cases hmem : (⟨owner, repo, branch, c⟩ : DmKey) ∈ st.store
      · rw [rdpStep_dup hmem]; exact hk
      · by_cases hs : sendOk c = true
        · rw [rdpStep_send hmem hs]
          simp only [List.mem_append]
          exact Or.inl hk
        · rw [rdpStep_fail hmem (by simpa using hs)]; exact hk

theorem rdp_dup_never_attempted (owner repo branch : String)
    (sendOk : String → Bool) :
    ∀ (l : List String) (st : RdpOutcome) (c : String),
      (⟨owner, repo, branch, c⟩ : DmKey) ∈ st.store →
      c ∉ st.attempted →
      c ∉ (l.foldl (rdpStep owner repo branch sendOk) st).attempted := by
  intro l
  induction l with
  | nil => intro st c _ hna; exact hna
  | cons d ds ih =>
      intro st c hk hna
      rw [List.foldl_cons]
      by_cases hmem : (⟨owner, repo, branch, d⟩ : DmKey) ∈ st.store
      · rw [rdpStep_dup hmem]
        exact ih _ c hk hna
      · have hcd : c ≠ d := by
          intro hEq
          subst hEq
          exact hmem hk
        by_cases hs : sendOk d = true
        · rw [rdpStep_send hmem hs]
          refine ih _ c ?_ ?_
          · simp only [List.mem_append]
            exact Or.inl hk
          · simp only [List.mem_append, List.mem_singleton]
            rintro (h | h)
            · exact hna h
            · exact hcd h
        · rw [rdpStep_fail hmem (by simpa using hs)]
          refine ih _ c hk ?_
          simp only [List.mem_append, List.mem_singleton]
          rintro (h | h)
          · exact hna h
          · exact hcd h

theorem rdp_partition (owner repo branch : String) (sendOk : String → Bool) :
    ∀ (l : List String) (st : RdpOutcome),
      (l.foldl (rdpStep owner repo branch sendOk) st).skippedDuplicates +
          (l.foldl (rdpStep owner repo branch sendOk) st).attempted.length =
        st.skippedDuplicates + st.attempted.length + l.length := by
  intro l
  induction l with
  | nil => intro st; simp
  | cons c cs ih =>
      intro st
      rw [List.foldl_cons]
      by_cases hmem : (⟨owner, repo, branch, c⟩ : DmKey) ∈ st.store
      · rw [rdpStep_dup hmem, ih]
        simp only [List.length_cons]
        omega
      · by_cases hs : sendOk c = true
        · rw [rdpStep_send hmem hs, ih]
          simp only [List.length_append, List.length_singleton, List.length_cons,
            List.length_nil]
          omega
        · rw [rdpStep_fail hmem (by simpa using hs), ih]
          simp only [List.length_append, List.length_singleton, List.length_cons,
            List.length_nil]
          omega

theorem rdp_sent_recorded (owner repo branch : String) (sendOk : String → Bool) :
    ∀ (l : List String) (st : RdpOutcome),
      (∀ c ∈ st.sentTo, (⟨owner, repo, branch, c⟩ : DmKey) ∈ st.store) →
      ∀ c ∈ (l.foldl (rdpStep owner repo branch sendOk) st).sentTo,
        (⟨owner, repo, branch, c⟩ : DmKey) ∈
          (l.foldl (rdpStep owner repo branch sendOk) st).store := by
  intro l
  induction l with
  | nil => intro st h; exact h
  | cons d ds ih =>
      intro st h
      rw [List.foldl_cons]
      by_cases hmem : (⟨owner, repo, branch, d⟩ : DmKey) ∈ st.store
      · rw [rdpStep_dup hmem]
        exact ih _ h
      · by_cases hs : sendOk d = true
        · rw [rdpStep_send hmem hs]
          apply ih
          intro c hc
          simp only [List.mem_append, List.mem_singleton] at hc ⊢
          rcases hc with hc | hc
          · exact Or.inl (h c hc)
          · subst hc
            exact Or.inr (by simp)
        · rw [rdpStep_fail hmem (by simpa using hs)]
          exact ih _ h

theorem rdp_attempted_from_list (owner repo branch : String)
    (sendOk : String → Bool) :
    ∀ (l : List String) (st : RdpOutcome) (c : String),
      c ∈ (l.foldl (rdpStep owner repo branch sendOk) st).attempted →
      c ∈ st.attempted ∨ c ∈ l := by
  intro l
  induction l with
  | nil => intro st c hc; exact Or.inl hc
  | cons d ds ih =>
      intro st c hc
      rw [List.foldl_cons] at hc
      by_cases hmem : (⟨owner, repo, branch, d⟩ : DmKey) ∈ st.store
      · rw [rdpStep_dup hmem] at hc
        rcases ih _ c hc with hc' | hc'
        · exact Or.inl hc'
        · exact Or.inr (List.mem_cons_of_mem d hc')
      · by_cases hs : sendOk d = true
        · rw [rdpStep_send hmem hs] at hc
          rcases ih _ c hc with hc' | hc'
          · simp only [List.mem_append, List.mem_singleton] at hc'
            rcases hc' with hc' | hc'
            · exact Or.inl hc'
            · exact Or.inr (by simp [hc'])
          · exact Or.inr (List.mem_cons_of_mem d hc')
        · rw [rdpStep_fail hmem (by simpa using hs)] at hc
          rcases ih _ c hc with hc' | hc'
          · simp only [List.mem_append, List.mem_singleton] at hc'
            rcases hc' with hc' | hc'
            · exact Or.inl hc'
            · exact Or.inr (by simp [hc'])
          · exact Or.inr (List.mem_cons_of_mem d hc')

theorem rdp_sent_counts (owner repo branch : String) (sendOk : String → Bool) :
    ∀ (l : List String) (st : RdpOutcome),
      (l.foldl (rdpStep owner repo branch sendOk) st).messagesSent +
          st.sentTo.length =
        st.messagesSent + (l.foldl (rdpStep owner repo branch sendOk) st).sentTo.length := by
  intro l
  induction l with
  | nil => intro st; simp
  | cons c cs ih =>
      intro st
      rw [List.foldl_cons]
      by_cases hmem : (⟨owner, repo, branch, c⟩ : DmKey) ∈ st.store
      · rw [rdpStep_dup hmem]
        exact ih _
      · by_cases hs : sendOk c = true
        · rw [rdpStep_send hmem hs]
          have := ih { st with store := st.store ++ [⟨owner, repo, branch, c⟩]
                               messagesSent := st.messagesSent + 1
                               attempted := st.attempted ++ [c]
                               sentTo := st.sentTo ++ [c] }
          simp only [List.length_append, List.length_singleton, List.length_cons,
            List.length_nil] at this ⊢
          omega
        · rw [rdpStep_fail hmem (by simpa using hs)]
          exact ih _

/-! ## Claim C3 -/

/-- C3: `requestDeletionPermission` consults the Deduplication Store before
each send — a contributor whose (repo, branch, contributor) record already
exists is never sent a notification and every processed contributor is
either counted as a skipped duplicate or attempted; and each successful send
records the dedup fact in the store. -/
theorem C3_dedup_consulted (owner repo branch : String)
    (contributors : List String) (store : List DmKey)
    (sendOk : String → Bool) :
    (∀ c, (⟨owner, repo, branch, c⟩ : DmKey) ∈ store →
      c ∉ (requestDeletionPermission owner repo branch contributors store
        sendOk).1.attempted) ∧
    ((requestDeletionPermission owner repo branch contributors store
        sendOk).1.skippedDuplicates +
      (requestDeletionPermission owner repo branch contributors store
        sendOk).1.attempted.length =
      (contributors.filter fun c => !(hasBotSuffix c)).length) ∧
    (∀ c ∈ (requestDeletionPermission owner repo branch contributors store
        sendOk).1.sentTo,
      (⟨owner, repo, branch, c⟩ : DmKey) ∈
        (requestDeletionPermission owner repo branch contributors store
          sendOk).1.store) := by
  refine ⟨?_, ?_, ?_⟩
  · intro c hk
    exact rdp_dup_never_attempted owner repo branch sendOk _ _ c hk
      (by simp)
  · have := rdp_partition owner repo branch sendOk
      (contributors.filter fun c => !(hasBotSuffix c))
      ⟨store, 0, 0, [], [], contributors.filter fun c => !(hasBotSuffix c)⟩
    simpa [requestDeletionPermission] using this
  · intro c hc
    exact rdp_sent_recorded owner repo branch sendOk _ _ (by simp) c hc

/-- Witness for `C3_dedup_consulted`: with an existing record for `"alice"`,
the only non-bot contributor is skipped, nothing is attempted, and the store
is unchanged. -/
theorem C3_dedup_consulted_witness :
    "alice" ∉ (requestDeletionPermission "o" "r" "b" ["alice"]
        [⟨"o", "r", "b", "alice"⟩] (fun _ => true)).1.attempted ∧
    (requestDeletionPermission "o" "r" "b" ["alice"]
        [⟨"o", "r", "b", "alice"⟩] (fun _ => true)).1.skippedDuplicates = 1 :=
  ⟨(C3_dedup_consulted "o" "r" "b" ["alice"] [⟨"o", "r", "b", "alice"⟩]
      (fun _ => true)).1 "alice" (by decide),
    by decide⟩

/-! ## Claim C4 -/

/-- C4: bot-suffixed contributors are filtered out before any notification is
attempted — no attempted contributor has the bot suffix, the post-filter list
is exactly the bot-free sublist, and the sent-message total counts only
successfully messaged (hence non-bot) contributors. -/
theorem C4_bot_filtering (owner repo branch : String)
    (contributors : List String) (store : List DmKey)
    (sendOk : String → Bool) :
    (∀ c ∈ (requestDeletionPermission owner repo branch contributors store
        sendOk).1.attempted, hasBotSuffix c = false) ∧
    ((requestDeletionPermission owner repo branch contributors store
        sendOk).1.filtered =
      contributors.filter fun c => !(hasBotSuffix c)) ∧
    ((requestDeletionPermission owner repo branch contributors store
        sendOk).1.messagesSent =
      (requestDeletionPermission owner repo branch contributors store
        sendOk).1.sentTo.length) := by
  refine ⟨?_, ?_, ?_⟩
  · intro c hc
    rcases rdp_attempted_from_list owner repo branch sendOk _ _ c hc with h | h
    · simp at h
    · have := List.of_mem_filter h
      simpa using this
  · have hinit :
        ∀ (l : List String) (st : RdpOutcome),
          (l.foldl (rdpStep owner repo branch sendOk) st).filtered = st.filtered := by
      intro l
      induction l with
      | nil => intro st; rfl
      | cons d ds ih =>
          intro st
          rw [List.foldl_cons, ih]
          unfold rdpStep
          by_cases hmem : (⟨owner, repo, branch, d⟩ : DmKey) ∈ st.store
          · simp [hmem]
          · by_cases hs : sendOk d = true <;> simp [hmem, hs]
    exact hinit _ _
  · have := rdp_sent_counts owner repo branch sendOk
      (contributors.filter fun c => !(hasBotSuffix c))
      ⟨store, 0, 0, [], [], contributors.filter fun c => !(hasBotSuffix c)⟩
    simpa [requestDeletionPermission] using this

/-- Witness for `C4_bot_filtering`: spec scenario 4 — contributors
`["alice", "bot[bot]"]` are filtered to `["alice"]`, one message is sent. -/
theorem C4_bot_filtering_witness :
    (requestDeletionPermission "o" "r" "feature/y" ["alice", "bot[bot]"]
        [] (fun c => c == "alice")).1.filtered = ["alice"] ∧
    (requestDeletionPermission "o" "r" "feature/y" ["alice", "bot[bot]"]
        [] (fun c => c == "alice")).1.messagesSent = 1 ∧
    (requestDeletionPermission "o" "r" "feature/y" ["alice", "bot[bot]"]
        [] (fun c => c == "alice")).1.attempted = ["alice"] :=
  ⟨by
    rw [(C4_bot_filtering "o" "r" "feature/y" ["alice", "bot[bot]"] []
      (fun c => c == "alice")).2.1]
    decide,
   by decide, by decide⟩

/-! ## Stale-PR state machine (`src/src/cli/checkManualMerges.ts`,
`StalePrsHandler.processPullRequest`, `warnStalePr`, `closeStalePr`,
and `GitHubService.getPullRequestActivity` in
`src/src/services/branchAnalyzer.ts`)

Timestamps are milliseconds since the epoch (`Int`); `new Date(0)` is `0`.
Comment posting and PR closing are modelled as succeeding; the outcome
records the comment bodies posted and whether `closePullRequest` was
called. -/

def BOT_NAME : String := "Severino Poggibonsi"

def BOT_AVATAR_URL : String := "https://severino-poggibonsi.vercel.app/severino-avatar.png"

def WARNING_COMMENT_MARKER : String := "<!-- severino-stale-warning -->"

def CLOSING_COMMENT_MARKER : String := "<!-- severino-stale-close -->"

def createBotSignature : String :=
  "<img src=\"" ++ BOT_AVATAR_URL ++
    "\" width=\"32\" height=\"32\" align=\"left\" style=\"margin-right: 10px;\" />\n\n**" ++
    BOT_NAME ++ "** | NOTRIVIAL Bot"

/-- Embeds `createWarningComment` (the displayed grace period is clamped to
at least 1 day). -/
def createWarningComment (warningDays : Int) (author : String)
    (daysUntilClose : Int) : String :=
  let safeDaysUntilClose := max 1 daysUntilClose
  WARNING_COMMENT_MARKER ++ "\n" ++ createBotSignature ++
    "\n\n---\n\nCiao @" ++ author ++
    "! I'm your friendly neighborhood bot.\n\nThis PR has been inactive for " ++
    toString warningDays ++
    " days. If there's no activity within the next " ++
    toString safeDaysUntilClose ++
    " days, I'll close it automatically to keep our repository tidy.\n\nIf you're still working on this, just leave a comment or push a commit to reset the timer!\n\nGrazie mille!"

/-- Embeds `createClosingComment`. -/
def createClosingComment (closeDays : Int) (author : String) : String :=
  CLOSING_COMMENT_MARKER ++ "\n" ++ createBotSignature ++
    "\n\n---\n\nCiao @" ++ author ++
    "! I'm back.\n\nThis PR has been inactive for " ++ toString closeDays ++
    " days, so I'm closing it now to keep things tidy.\n\nDon't worry though - you can always reopen this PR if you want to continue working on it. Just leave a comment and we'll pick up where we left off!\n\nArrivederci!"

/-- The three activity signals `getPullRequestActivity` fetches: the newest
comment update time (absent when there is no comment or no `updated_at`), the
`submitted_at` of each review (absent entries are JS-falsy and map to the
epoch), and the newest commit's committer date (absent when no commit or no
date). -/
structure PrActivitySignals where
  latestCommentUpdate : Option Int
  reviewSubmittedAts : List (Option Int)
  latestCommitDate : Option Int
deriving DecidableEq, Repr

/-- Embeds `GitHubService.getPullRequestActivity`: collect the obtainable
signal dates, reduce reviews to their maximum (pushed only when positive),
return the epoch when no date was collected, else the maximum. -/
def getPullRequestActivity (sig : PrActivitySignals) : Int :=
  let dates1 : List Int :=
    match sig.latestCommentUpdate with
    | some t => [t]
    | none => []
  let latestReview : Int :=
    sig.reviewSubmittedAts.foldl
      (fun latest r =>
        let reviewDate := match r with | some t => t | none => 0
        if reviewDate > latest then reviewDate else latest) 0
  let dates2 : List Int :=
    if sig.reviewSubmittedAts.length > 0 ∧ latestReview > 0 then
      dates1 ++ [latestReview]
    else dates1
  let dates3 : List Int :=
    match sig.latestCommitDate with
    | some t => dates2 ++ [t]
    | none => dates2
  if dates3.isEmpty then 0
  else dates3.foldl (fun latest d => if d > latest then d else latest) 0

/-- The stale-PR configuration fields (`config.stalePrs`). -/
structure StaleConfig where
  warningDays : Int
  closeDays : Int
  excludeLabels : List String
deriving DecidableEq, Repr

/-- The pull-request fields `processPullRequest` reads. -/
structure PrData where
  number : Int
  author : String
  labels : List String
  updatedAt : Int
deriving DecidableEq, Repr

/-- The action taken on one pull request. -/
inductive StaleAction where
  | noAction
  | warning (daysSinceActivity daysUntilClose : Int)
  | closed
deriving DecidableEq, Repr

/-- Outcome of one `processPullRequest` invocation: the action, the comment
bodies posted, and whether `closePullRequest` was called. -/
structure StaleOutcome where
  action : StaleAction
  postedComments : List String
  closeCalled : Bool
deriving DecidableEq, Repr

/-- Embeds `hasExcludedLabel` from `src/src/utils/config.ts`. -/
def hasExcludedLabel (labels : List String) (excludeLabels : List String) : Bool :=
  labels.any fun label => excludeLabels.any (· = label)

/-- `Math.floor((now - date) / DAY_MS)`: floor division on the millisecond
difference. -/
def getDaysSince (now date : Int) : Int :=
  Int.fdiv (now - date) 86400000

/-- The activity date `processPullRequest` works from: the explicit activity
timestamp when positive, else the PR's `updatedAt`. -/
def effectiveActivityDate (lastActivity updatedAt : Int) : Int :=
  if lastActivity > 0 then lastActivity else updatedAt

/-- Embeds `StalePrsHandler.processPullRequest` (with `closeStalePr` and
`warnStalePr` inlined as their posted comment and close call): skip excluded
labels; close when past `closeDays` with a warning marker present and no
closing marker; warn when past `warningDays` with no warning marker; else no
action. -/
def processPullRequest (cfg : StaleConfig) (now : Int) (pr : PrData)
    (lastActivity : Int) (comments : List String) : StaleOutcome :=
  if hasExcludedLabel pr.labels cfg.excludeLabels then ⟨.noAction, [], false⟩
  else
    let daysSinceActivity :=
      getDaysSince now (effectiveActivityDate lastActivity pr.updatedAt)
    let hasWarningComment := comments.any fun c => strIncludes WARNING_COMMENT_MARKER c
    let hasClosingComment := comments.any fun c => strIncludes CLOSING_COMMENT_MARKER c
    if daysSinceActivity ≥ cfg.closeDays ∧ hasWarningComment = true ∧
        hasClosingComment = false then
      ⟨.closed, [createClosingComment cfg.closeDays pr.author], true⟩
    else if daysSinceActivity ≥ cfg.warningDays ∧ hasWarningComment = false then
      ⟨.warning daysSinceActivity (cfg.closeDays - daysSinceActivity),
        [createWarningComment cfg.warningDays pr.author
          (cfg.closeDays - daysSinceActivity)], false⟩
    else ⟨.noAction, [], false⟩

/-! Marker helper lemmas. -/

theorem data_append (s t : String) : (s ++ t).data = s.data ++ t.data := rfl

theorem startsWithChars_append (xs ys : List Char) :
    startsWithChars xs (xs ++ ys) = true := by
  induction xs with
  | nil => rfl
  | cons a as ih => simp [startsWithChars, ih]

theorem strIncludes_of_startsWith {pre s : String}
    (h : startsWithChars pre.data s.data = true) : strIncludes pre s = true := by
  unfold strIncludes
  rw [List.any_eq_true]
  exact ⟨0, by simp, by simpa using h⟩

theorem warning_marker_in_warning (warningDays : Int) (author : String)
    (daysUntilClose : Int) :
    strIncludes WARNING_COMMENT_MARKER
      (createWarningComment warningDays author daysUntilClose) = true := by
  apply strIncludes_of_startsWith
  unfold createWarningComment
  simp only [data_append, List.append_assoc]
  exact startsWithChars_append _ _

theorem closing_marker_in_closing (closeDays : Int) (author : String) :
    strIncludes CLOSING_COMMENT_MARKER
      (createClosingComment closeDays author) = true := by
  apply strIncludes_of_startsWith
  unfold createClosingComment
  simp only [data_append, List.append_assoc]
  exact startsWithChars_append _ _

/-- Unfolding equation for `processPullRequest` with the local `let`s
expanded. -/
theorem processPullRequest_eq (cfg : StaleConfig) (now : Int) (pr : PrData)
    (lastActivity : Int) (comments : List String) :
    processPullRequest cfg now pr lastActivity comments =
      if hasExcludedLabel pr.labels cfg.excludeLabels then ⟨.noAction, [], false⟩
      else if getDaysSince now (effectiveActivityDate lastActivity pr.updatedAt) ≥
            cfg.closeDays ∧
          (comments.any fun c => strIncludes WARNING_COMMENT_MARKER c) = true ∧
          (comments.any fun c => strIncludes CLOSING_COMMENT_MARKER c) = false then
        ⟨.closed, [createClosingComment cfg.closeDays pr.author], true⟩
      else if getDaysSince now (effectiveActivityDate lastActivity pr.updatedAt) ≥
            cfg.warningDays ∧
          (comments.any fun c => strIncludes WARNING_COMMENT_MARKER c) = false then
        ⟨.warning
            (getDaysSince now (effectiveActivityDate lastActivity pr.updatedAt))
            (cfg.closeDays -
              getDaysSince now (effectiveActivityDate lastActivity pr.updatedAt)),
          [createWarningComment cfg.warningDays pr.author
            (cfg.closeDays -
              getDaysSince now (effectiveActivityDate lastActivity pr.updatedAt))],
          false⟩
      else ⟨.noAction, [], false⟩ := rfl

/-! ## Claim C6 -/

/-- C6 (counterexample): with no activity signal obtainable,
`getPullRequestActivity` returns the epoch, but `processPullRequest` then
falls back to the PR's `updatedAt` (here: `now`, 20 days after the epoch),
so the computed days-since-activity is 0 — it does not exceed the default
7-day warning threshold and no action is taken, contradicting the claim
that the activity age is effectively infinite. -/
theorem C6_counterexample :
    getPullRequestActivity ⟨none, [], none⟩ = 0 ∧
    processPullRequest ⟨7, 14, defaultExcludeLabels⟩ 1728000000
        ⟨1, "alice", [], 1728000000⟩
        (getPullRequestActivity ⟨none, [], none⟩) [] =
      ⟨StaleAction.noAction, [], false⟩ ∧
    ¬ (7 ≤ getDaysSince 1728000000
        (effectiveActivityDate (getPullRequestActivity ⟨none, [], none⟩)
          1728000000)) := by
  refine ⟨by decide, ?_, by decide⟩
  rw [processPullRequest_eq]
  decide

/-- The review fold of `getPullRequestActivity` stays at the epoch when every
review lacks a `submitted_at`. -/
theorem reviewFold_none :
    ∀ l : List (Option Int), (∀ r ∈ l, r = none) →
      l.foldl
        (fun latest r =>
          let reviewDate := match r with | some t => t | none => 0
          if reviewDate > latest then reviewDate else latest) 0 = 0 := by
  intro l
  induction l with
  | nil => intro _; rfl
  | cons r rs ih =>
      intro h
      have hr : r = none := h r (by simp)
      subst hr
      rw [List.foldl_cons]
      simpa using ih fun r hr => h r (List.mem_cons_of_mem _ hr)

/-- C6 (amended): when none of the three activity signals is obtainable,
`getPullRequestActivity` returns the epoch date, and `processPullRequest`
then uses the PR's `updatedAt` as the effective activity date — the age is
computed from `updatedAt`, not treated as effectively infinite. -/
theorem C6_activity_fallback (sig : PrActivitySignals)
    (hc : sig.latestCommentUpdate = none)
    (hr : ∀ r ∈ sig.reviewSubmittedAts, r = none)
    (hk : sig.latestCommitDate = none) :
    getPullRequestActivity sig = 0 ∧
    ∀ updatedAt : Int,
      effectiveActivityDate (getPullRequestActivity sig) updatedAt = updatedAt := by
  have h0 : getPullRequestActivity sig = 0 := by
    unfold getPullRequestActivity
    rw [hc, hk, reviewFold_none _ hr]
    simp
  refine ⟨h0, ?_⟩
  intro updatedAt
  rw [h0]
  rfl

/-- Witness for `C6_activity_fallback` at concrete all-absent signals. -/
theorem C6_activity_fallback_witness :
    getPullRequestActivity ⟨none, [none, none], none⟩ = 0 ∧
    effectiveActivityDate (getPullRequestActivity ⟨none, [none, none], none⟩)
        555 = 555 :=
  ⟨(C6_activity_fallback ⟨none, [none, none], none⟩ rfl (by decide) rfl).1,
    (C6_activity_fallback ⟨none, [none, none], none⟩ rfl (by decide) rfl).2 555⟩

/-! ## Claim C7 -/

set_option maxRecDepth 8000 in
/-- C7 (counterexample): a PR 19 days inactive (past both thresholds) with no
comments is warned on the first run; the second run — same activity, comment
list extended by the warning comment that the first run posted — closes the
PR, so the second run does perform an action, contradicting the claim that
the second run produces no action. -/
theorem C7_counterexample :
    (processPullRequest ⟨7, 14, defaultExcludeLabels⟩ 1728000000
        ⟨1, "alice", [], 0⟩ 1 []).action = StaleAction.warning 19 (-5) ∧
    (processPullRequest ⟨7, 14, defaultExcludeLabels⟩ 1728000000
        ⟨1, "alice", [], 0⟩ 1
        ([] ++ (processPullRequest ⟨7, 14, defaultExcludeLabels⟩ 1728000000
            ⟨1, "alice", [], 0⟩ 1 []).postedComments)).action =
      StaleAction.closed := by
  simp only [processPullRequest_eq]
  decide

/-- C7 (amended): on the second of two successive runs with the same activity
timestamps, the comment list extended only by what the first run posted:
if the first run took no action or closed the PR, the second run takes no
action; after a first-run warning the second run never warns again (no
duplicate warning comment), and if it closes, no closing-marker comment
existed before it (it is a first close, not a duplicate close attempt). -/
theorem C7_stale_idempotence_amended (cfg : StaleConfig) (now : Int)
    (pr : PrData) (lastActivity : Int) (comments : List String) :
    ((processPullRequest cfg now pr lastActivity comments).action =
        StaleAction.noAction →
      processPullRequest cfg now pr lastActivity
          (comments ++
            (processPullRequest cfg now pr lastActivity comments).postedComments) =
        ⟨StaleAction.noAction, [], false⟩) ∧
    ((processPullRequest cfg now pr lastActivity comments).action =
        StaleAction.closed →
      processPullRequest cfg now pr lastActivity
          (comments ++
            (processPullRequest cfg now pr lastActivity comments).postedComments) =
        ⟨StaleAction.noAction, [], false⟩) ∧
    (∀ d1 d2, (processPullRequest cfg now pr lastActivity comments).action =
        StaleAction.warning d1 d2 →
      (∀ e1 e2, (processPullRequest cfg now pr lastActivity
          (comments ++
            (processPullRequest cfg now pr lastActivity comments).postedComments)).action ≠
        StaleAction.warning e1 e2) ∧
      ((processPullRequest cfg now pr lastActivity
          (comments ++
            (processPullRequest cfg now pr lastActivity comments).postedComments)).action =
          StaleAction.closed →
        (comments.any fun c => strIncludes CLOSING_COMMENT_MARKER c) = false)) := by
  by_cases hex : hasExcludedLabel pr.labels cfg.excludeLabels = true
  · rw [processPullRequest_eq, if_pos hex]
    refine ⟨?_, ?_, ?_⟩
    · intro _
      rw [processPullRequest_eq, if_pos hex]
    · intro h
      simp at h
    · intro d1 d2 h
      simp at h
  · have hexf : hasExcludedLabel pr.labels cfg.excludeLabels = false := by
      simpa using hex
    by_cases hclose :
        getDaysSince now (effectiveActivityDate lastActivity pr.updatedAt) ≥
            cfg.closeDays ∧
          (comments.any fun c => strIncludes WARNING_COMMENT_MARKER c) = true ∧
          (comments.any fun c => strIncludes CLOSING_COMMENT_MARKER c) = false
    · -- first run closes the PR
      rw [processPullRequest_eq, if_neg (by simp [hexf]), if_pos hclose]
      have hw2 :
          ((comments ++ [createClosingComment cfg.closeDays pr.author]).any
            fun c => strIncludes WARNING_COMMENT_MARKER c) = true := by
        simp [hclose.2.1]
      have hcl2 :
          ((comments ++ [createClosingComment cfg.closeDays pr.author]).any
            fun c => strIncludes CLOSING_COMMENT_MARKER c) = true := by
        simp [closing_marker_in_closing]
      refine ⟨?_, ?_, ?_⟩
      · intro h
        simp at h
      · intro _
        show processPullRequest cfg now pr lastActivity
            (comments ++ [createClosingComment cfg.closeDays pr.author]) = _
        rw [processPullRequest_eq, if_neg (by simp [hexf]),
          if_neg (by
            rintro ⟨_, _, h⟩
            rw [hcl2] at h
            exact absurd h (by decide)),
          if_neg (by
            rintro ⟨_, h⟩
            rw [hw2] at h
            exact absurd h (by decide))]
      · intro d1 d2 h
        simp at h
    · by_cases hwarn :
          getDaysSince now (effectiveActivityDate lastActivity pr.updatedAt) ≥
              cfg.warningDays ∧
            (comments.any fun c => strIncludes WARNING_COMMENT_MARKER c) = false
      · -- first run posts the warning
        rw [processPullRequest_eq, if_neg (by simp [hexf]), if_neg hclose,
          if_pos hwarn]
        have hw2 :
            ((comments ++
                [createWarningComment cfg.warningDays pr.author
                  (cfg.closeDays -
                    getDaysSince now
                      (effectiveActivityDate lastActivity pr.updatedAt))]).any
              fun c => strIncludes WARNING_COMMENT_MARKER c) = true := by
          simp [warning_marker_in_warning]
        refine ⟨?_, ?_, ?_⟩
        · intro h
          simp at h
        · intro h
          simp at h
        · intro d1 d2 _
          constructor
          · intro e1 e2
            show (processPullRequest cfg now pr lastActivity
                (comments ++
                  [createWarningComment cfg.warningDays pr.author
                    (cfg.closeDays -
                      getDaysSince now
                        (effectiveActivityDate lastActivity pr.updatedAt))])).action ≠ _
            rw [processPullRequest_eq, if_neg (by simp [hexf])]
            by_cases hclose2 :
                getDaysSince now (effectiveActivityDate lastActivity pr.updatedAt) ≥
                    cfg.closeDays ∧
                  ((comments ++
                      [createWarningComment cfg.warningDays pr.author
                        (cfg.closeDays -
                          getDaysSince now
                            (effectiveActivityDate lastActivity pr.updatedAt))]).any
                    fun c => strIncludes WARNING_COMMENT_MARKER c) = true ∧
                  ((comments ++
                      [createWarningComment cfg.warningDays pr.author
                        (cfg.closeDays -
                          getDaysSince now
                            (effectiveActivityDate lastActivity pr.updatedAt))]).any
                    fun c => strIncludes CLOSING_COMMENT_MARKER c) = false
            · rw [if_pos hclose2]
              simp
            · rw [if_neg hclose2,
                if_neg (by
                  rintro ⟨_, h⟩
                  rw [hw2] at h
                  exact absurd h (by decide))]
              simp
          · intro h2
            rw [show comments ++
                  (⟨StaleAction.warning
                      (getDaysSince now (effectiveActivityDate lastActivity pr.updatedAt))
                      (cfg.closeDays -
                        getDaysSince now (effectiveActivityDate lastActivity pr.updatedAt)),
                    [createWarningComment cfg.warningDays pr.author
                      (cfg.closeDays -
                        getDaysSince now (effectiveActivityDate lastActivity pr.updatedAt))],
                    false⟩ : StaleOutcome).postedComments =
                comments ++
                  [createWarningComment cfg.warningDays pr.author
                    (cfg.closeDays -
                      getDaysSince now
                        (effectiveActivityDate lastActivity pr.updatedAt))] from rfl,
              processPullRequest_eq, if_neg (by simp [hexf])] at h2
            by_cases hclose2 :
                getDaysSince now (effectiveActivityDate lastActivity pr.updatedAt) ≥
                    cfg.closeDays ∧
                  ((comments ++
                      [createWarningComment cfg.warningDays pr.author
                        (cfg.closeDays -
                          getDaysSince now
                            (effectiveActivityDate lastActivity pr.updatedAt))]).any
                    fun c => strIncludes WARNING_COMMENT_MARKER c) = true ∧
                  ((comments ++
                      [createWarningComment cfg.warningDays pr.author
                        (cfg.closeDays -
                          getDaysSince now
                            (effectiveActivityDate lastActivity pr.updatedAt))]).any
                    fun c => strIncludes CLOSING_COMMENT_MARKER c) = false
            · have hcl2 := hclose2.2.2
              rw [List.any_append] at hcl2
              simp only [Bool.or_eq_false_iff] at hcl2
              exact hcl2.1
            · rw [if_neg hclose2,
                if_neg (by
                  rintro ⟨_, h⟩
                  rw [hw2] at h
                  exact absurd h (by decide))] at h2
              simp at h2
      · rw [processPullRequest_eq, if_neg (by simp [hexf]), if_neg hclose,
          if_neg hwarn]
        refine ⟨?_, ?_, ?_⟩
        · intro _
          rw [List.append_nil, processPullRequest_eq, if_neg (by simp [hexf]),
            if_neg hclose, if_neg hwarn]
        · intro h
          simp at h
        · intro d1 d2 h
          simp at h
/-- Witness for `C7_stale_idempotence_amended`: after a first-run close, the
second run takes no action. -/
theorem C7_stale_idempotence_amended_witness :
    processPullRequest ⟨7, 14, defaultExcludeLabels⟩ 1728000000
        ⟨1, "alice", [], 0⟩ 1
        ([WARNING_COMMENT_MARKER] ++
          (processPullRequest ⟨7, 14, defaultExcludeLabels⟩ 1728000000
            ⟨1, "alice", [], 0⟩ 1 [WARNING_COMMENT_MARKER]).postedComments) =
      ⟨StaleAction.noAction, [], false⟩ :=
  (C7_stale_idempotence_amended ⟨7, 14, defaultExcludeLabels⟩ 1728000000
      ⟨1, "alice", [], 0⟩ 1 [WARNING_COMMENT_MARKER]).2.1
    (by rw [processPullRequest_eq]; decide)

end Severino
